import Mathlib

/-!
Verification development for the KSPlayer frame-annotation tool
(`KSPlayer_2025_1.1.py`).  The Python program is shallowly embedded:
the per-subject zone arrays (`numpy` int8 arrays) become `List Nat`,
the window's mutable fields become an explicit `AppState` record, and
each handler becomes a pure function on that record.  CSV cells are
lists of characters; Python `int(...)` on the strings this program
reads and writes is modelled by an explicit digit-string codec.
-/

namespace KSPlayer

/-- Zone labels carried by a held gesture: `'A'` or `'B'` in the source
(`self.current_zone`); `none` models Python `None`. -/
inductive Zone where
  | A
  | B
deriving DecidableEq, Repr

/-- Pointer buttons distinguished by the handlers: left, right, anything else. -/
inductive Button where
  | left
  | right
  | other
deriving DecidableEq, Repr

/-- One subject's zone array (`np.zeros(frame_count + 1, dtype=np.int8)`):
entry values 0 = unlabeled, 1 = Zone A, 2 = Zone B. -/
abbrev Timeline := List Nat

/-- `zone_arrays[m][f]`, reading out of range as 0/empty (in reachable
program states all accesses are in range). -/
def getCell (za : List Timeline) (m f : Nat) : Nat :=
  (za.getD m []).getD f 0

/-- `zone_arrays[m][f] = v`; `List.set` is a no-op out of range, matching
the fact that the program only writes in range. -/
def write2d (za : List Timeline) (m f v : Nat) : List Timeline :=
  za.set m ((za.getD m []).set f v)

/-- The mutable fields of `MouseBehaviorAnalyzer` that the core logic
reads and writes.  `pos` is the decoder cursor `CAP_PROP_POS_FRAMES`
(index of the next frame `cap.read()` will decode); `current_frame` is
`self.current_frame`, which the program sets to the post-read cursor, so
it equals the on-screen frame number.  `zone_arrays = []` encodes Python
`None` (whenever arrays exist the program has `mouse_count ≥ 1`). -/
structure AppState where
  frame_count : Nat
  pos : Nat
  current_frame : Nat
  mouse_count : Nat
  current_mouse : Nat
  zone_arrays : List Timeline
  mouse_pressed : Bool
  delete_mode : Bool
  current_zone : Option Zone
deriving Repr

/-- Helper for the annotation write in `update_frame`. -/
def writeLabel (s : AppState) (idx lab : Nat) : AppState :=
  { s with zone_arrays := write2d s.zone_arrays s.current_mouse idx lab }

/-- The label value stored by the `if/elif/elif` chain at source lines
404-409: delete mode writes 0, a held Zone A gesture 1, Zone B 2, and a
held press with no zone (`current_zone is None`, e.g. a middle-button
press) writes nothing. -/
def gestureLabel (s : AppState) : Option Nat :=
  if s.delete_mode = true then some 0
  else
    match s.current_zone with
    | some Zone.A => some 1
    | some Zone.B => some 2
    | none => none

/-- `update_frame` (source lines 389-444).  `cap.read()` succeeds exactly
when `pos < frame_count`, decoding frame `pos` and leaving the cursor at
`pos + 1`; the program then stores that cursor in `current_frame` and,
if a pointer gesture is held and `current_frame < frame_count`, writes
one label at `current_frame - 1`.  On a failed read (end of stream) it
only rewinds the cursor to 0.  The first component is the index of the
frame decoded and displayed by this call (`none` = end of stream). -/
def read_next (s : AppState) : Option Nat × AppState :=
  if s.pos < s.frame_count then
    if s.mouse_pressed = true ∧ s.pos + 1 < s.frame_count then
      match gestureLabel s with
      | some lab =>
          (some s.pos,
            writeLabel { s with pos := s.pos + 1, current_frame := s.pos + 1 }
              (s.pos + 1 - 1) lab)
      | none => (some s.pos, { s with pos := s.pos + 1, current_frame := s.pos + 1 })
    else (some s.pos, { s with pos := s.pos + 1, current_frame := s.pos + 1 })
  else
    (none, { s with pos := 0 })

/-- `update_frame`'s effect on the state. -/
def update_frame (s : AppState) : AppState := (read_next s).2

/-- `mouse_press_event` (source lines 532-543): ignored while already
pressed; in delete mode the held intent is `None`, otherwise left/right
select Zone A/B (any other button leaves `current_zone` unchanged). -/
def mouse_press_event (s : AppState) (b : Button) : AppState :=
  if s.mouse_pressed = true then s
  else
    let s1 : AppState := { s with mouse_pressed := true }
    if s1.delete_mode = true then { s1 with current_zone := none }
    else
      match b with
      | Button.left => { s1 with current_zone := some Zone.A }
      | Button.right => { s1 with current_zone := some Zone.B }
      | Button.other => s1

/-- `mouse_release_event` (source lines 545-551): left or right release
ends the gesture (the flush it triggers — recount, repaint, save — does
not change the zone arrays). -/
def mouse_release_event (s : AppState) (b : Button) : AppState :=
  match b with
  | Button.other => s
  | _ => { s with mouse_pressed := false, current_zone := none }

/-- `initialize_zone_arrays` (source lines 694-697): fresh all-zero
arrays of length `frame_count + 1`, only when a video is loaded. -/
def initialize_zone_arrays (fc mc : Nat) (za : List Timeline) : List Timeline :=
  if 0 < fc then List.replicate mc (List.replicate (fc + 1) 0) else za

/-- The confirmed branch of `delete_all_labels` (source lines 497-511):
`zone_arrays[i].fill(0)` for every `i < mouse_count`. -/
def delete_all_labels (za : List Timeline) (mc : Nat) : List Timeline :=
  (List.range mc).foldl
    (fun acc i => acc.set i (List.replicate ((acc.getD i []).length) 0)) za

/-- `mouse_count_changed` (source lines 655-682): store the new count;
if a video is loaded, build fresh zero arrays and copy the first
`min(old_count, new_count)` old arrays over them (the source guards each
copy by `i < len(old)` and `i < len(new)`). -/
def mouse_count_changed (s : AppState) (newCount : Nat) : AppState :=
  let oldCount := s.mouse_count
  let oldArrays := s.zone_arrays
  if 0 < s.frame_count then
    let fresh := List.replicate newCount (List.replicate (s.frame_count + 1) 0)
    let za :=
      if oldArrays.isEmpty then fresh
      else
        (List.range (min oldCount newCount)).foldl
          (fun acc i =>
            if i < oldArrays.length ∧ i < acc.length then
              acc.set i (oldArrays.getD i [])
            else acc)
          fresh
    { s with mouse_count := newCount, zone_arrays := za }
  else
    { s with mouse_count := newCount }

/-! ### Persistence: the CSV sidecar codec

CSV cells are lists of characters.  `csv.writer` writes `str(frame_num)`
for the integer first field, so the decimal codec of Python `str`/`int`
is embedded explicitly. -/

/-- Decimal digit characters as produced by Python `str` on 0–9. -/
def digitChar : Nat → Char
  | 0 => '0'
  | 1 => '1'
  | 2 => '2'
  | 3 => '3'
  | 4 => '4'
  | 5 => '5'
  | 6 => '6'
  | 7 => '7'
  | 8 => '8'
  | _ => '9'

/-- `'0' ≤ c ≤ '9'`. -/
def isDigitCh (c : Char) : Bool := decide (48 ≤ c.toNat ∧ c.toNat ≤ 57)

/-- Numeric value of a digit character. -/
def digitVal (c : Char) : Nat := c.toNat - 48

/-- Python `str(n)` for a nonnegative int: most-significant-first
decimal digits. -/
def natToChars (n : Nat) : List Char :=
  if n = 0 then ['0'] else ((Nat.digits 10 n).map digitChar).reverse

/-- Python `int(s)` on the field strings this program reads and writes:
a nonempty all-digit string parses to its value, anything else raises
`ValueError` (modelled `none`).  Signed or whitespace-padded forms,
which the program never writes, would either raise or be rejected by
the `0 <= frame_num` range guard, so identifying them with `none`
preserves the load behavior. -/
def parsePyNat (cs : List Char) : Option Nat :=
  if cs ≠ [] ∧ cs.all isDigitCh then
    some (Nat.ofDigits 10 ((cs.map digitVal).reverse))
  else none

/-- The cell written for a stored label value (source line 621):
`'A' if zone == 1 else 'B' if zone == 2 else ''`. -/
def zoneStr (v : Nat) : List Char :=
  if v = 1 then ['A'] else if v = 2 then ['B'] else []

/-- Python `str.split(sep)` for a one-character separator. -/
def splitCh (sep : Char) : List Char → List (List Char)
  | [] => [[]]
  | c :: cs =>
      let r := splitCh sep cs
      if c = sep then [] :: r else (c :: r.headD []) :: r.tail

/-- Python `str.startswith(pat)`. -/
def startsWithCh : List Char → List Char → Bool
  | [], _ => true
  | _ :: _, [] => false
  | p :: ps, c :: cs => p = c && startsWithCh ps cs

/-- Python `enumerate` with a running index. -/
def pyEnum {α : Type} (k : Nat) : List α → List (Nat × α)
  | [] => []
  | a :: l => (k, a) :: pyEnum (k + 1) l

/-- Header-cell parsing in `load_video` (source lines 330-336): a column
whose name starts with `Mouse` contributes `int(col.split(' ')[1])`; a
missing second piece (IndexError) or a failing `int` (ValueError) just
skips the column. -/
def parseMouseCol (c : List Char) : Option Nat :=
  if startsWithCh ['M', 'o', 'u', 's', 'e'] c then
    match splitCh ' ' c with
    | _ :: snd :: _ => parsePyNat snd
    | _ => none
  else none

/-- The `(column index, mouse number)` pairs collected from the header
(source lines 329-336). -/
def mouseColumns (header : List (List Char)) : List (Nat × Nat) :=
  (pyEnum 0 header).filterMap fun p => (parseMouseCol p.2).map fun mn => (p.1, mn)

/-- Stable insertion below the first strictly larger second component:
together with `sortByKey` this models the stable Python
`mouse_columns.sort(key=lambda x: x[1])`. -/
def insertByKey (p : Nat × Nat) : List (Nat × Nat) → List (Nat × Nat)
  | [] => [p]
  | q :: qs => if p.2 ≤ q.2 then p :: q :: qs else q :: insertByKey p qs

/-- Stable insertion sort by the second component. -/
def sortByKey : List (Nat × Nat) → List (Nat × Nat)
  | [] => []
  | p :: ps => insertByKey p (sortByKey ps)

/-- One data row applied to the zone arrays (source lines 351-365): rows
with at most one field are skipped, a non-integer frame field
(`ValueError`) skips the row, an out-of-range frame number skips the
row, and otherwise every mouse column present in the row stores 1 for
`A` and 2 for `B` at `zone_arrays[mouse_num - 1][frame_num]` (the
program guarantees `mouse_num ≥ 1` columns feed writable rows since the
array list is sized by the largest mouse number). -/
def applyRowStep (row : List (List Char)) (fn : Nat) (acc : List Timeline)
    (pc : Nat × Nat) : List Timeline :=
  if pc.1 < row.length then
    if row.getD pc.1 [] = ['A'] then write2d acc (pc.2 - 1) fn 1
    else if row.getD pc.1 [] = ['B'] then write2d acc (pc.2 - 1) fn 2
    else acc
  else acc

def applyRow (fc : Nat) (cols : List (Nat × Nat)) (za : List Timeline)
    (row : List (List Char)) : List Timeline :=
  if 1 < row.length then
    match parsePyNat (row.getD 0 []) with
    | some fn => if fn < fc then cols.foldl (applyRowStep row fn) za else za
    | none => za
  else za

/-- The CSV-reading part of `load_video` (source lines 322-365) for a
loaded video of `fc` frames: parse the header, sort the mouse columns by
mouse number and take the last (largest) number as the new subject
count, initialize fresh zero arrays of length `fc + 1` and fold the data
rows into them.  Without any `Mouse` column the arrays are left
uninitialized (`none`). -/
def load_csv (fc : Nat) (header : List (List Char))
    (rows : List (List (List Char))) : Option (Nat × List Timeline) :=
  match (sortByKey (mouseColumns header)).getLast? with
  | none => none
  | some last =>
      some (last.2,
        rows.foldl (applyRow fc (sortByKey (mouseColumns header)))
          (List.replicate last.2 (List.replicate (fc + 1) 0)))

/-- Header written by `save_results` (source lines 607-610):
`Frame, Mouse 1, …, Mouse mc`. -/
def saveHeader (mc : Nat) : List (List Char) :=
  ['F', 'r', 'a', 'm', 'e'] ::
    (List.range mc).map fun i => ['M', 'o', 'u', 's', 'e', ' '] ++ natToChars (i + 1)

/-- One data row written by `save_results` (source lines 617-623): the
frame number followed by one `'A'`/`'B'`/empty cell per subject. -/
def savedRow (mc : Nat) (za : List Timeline) (f : Nat) : List (List Char) :=
  natToChars f :: (List.range mc).map fun m => zoneStr (getCell za m f)

/-- `save_results` (source lines 594-625): no write when no video/arrays
are loaded (`za = []`) or when the currently selected subject's array
has no positive entry (`np.sum(zone_arrays[current_mouse] > 0) == 0`);
otherwise the complete header and one row per frame index
`0 .. fc - 1`. -/
def save_results (fc mc cm : Nat) (za : List Timeline) :
    Option (List (List Char) × List (List (List Char))) :=
  if za.isEmpty then none
  else if (za.getD cm []).countP (fun v => decide (0 < v)) = 0 then none
  else some (saveHeader mc, (List.range fc).map (savedRow mc za))

/-! ### Basic lemmas about cell access -/

theorem getD_set_self {α : Type} (l : List α) (i : Nat) (a d : α) (h : i < l.length) :
    (l.set i a).getD i d = a := by
  rw [List.getD_eq_getElem?_getD, List.getElem?_set_self h]
  rfl

theorem getD_set_ne {α : Type} (l : List α) (i j : Nat) (a d : α) (h : i ≠ j) :
    (l.set i a).getD j d = l.getD j d := by
  rw [List.getD_eq_getElem?_getD, List.getElem?_set_ne h, ← List.getD_eq_getElem?_getD]

theorem getD_replicate {α : Type} (n i : Nat) (a d : α) (h : i < n) :
    (List.replicate n a).getD i d = a := by
  rw [List.getD_eq_getElem?_getD, List.getElem?_replicate]
  simp [h]

theorem getD_replicate_oob {α : Type} (n i : Nat) (a d : α) (h : n ≤ i) :
    (List.replicate n a).getD i d = d := by
  rw [List.getD_eq_getElem?_getD, List.getElem?_replicate]
  simp [Nat.not_lt.mpr h]

theorem getD_mem {α : Type} (l : List α) (i : Nat) (d : α) (h : i < l.length) :
    l.getD i d ∈ l := by
  rw [List.getD_eq_getElem?_getD, List.getElem?_eq_getElem h]
  exact List.getElem_mem h

theorem getD_map_range {α : Type} (f : Nat → α) (n i : Nat) (d : α) (h : i < n) :
    ((List.range n).map f).getD i d = f i := by
  rw [List.getD_eq_getElem?_getD, List.getElem?_map]
  simp [List.getElem?_range, h]

theorem getD_set_self_tl (za : List Timeline) (m : Nat) (x : Timeline)
    (hm : m < za.length) : (za.set m x).getD m [] = x :=
  getD_set_self za m x [] hm

theorem getD_set_ne_tl (za : List Timeline) (m m' : Nat) (x : Timeline)
    (h : m ≠ m') : (za.set m x).getD m' [] = za.getD m' [] :=
  getD_set_ne za m m' x [] h

theorem getCell_write2d_same (za : List Timeline) (m f v : Nat)
    (hm : m < za.length) (hf : f < (za.getD m []).length) :
    getCell (write2d za m f v) m f = v := by
  unfold getCell write2d
  rw [getD_set_self_tl za m _ hm, getD_set_self _ _ _ _ hf]

theorem getCell_write2d_other (za : List Timeline) (m f v m' f' : Nat)
    (h : ¬(m' = m ∧ f' = f)) :
    getCell (write2d za m f v) m' f' = getCell za m' f' := by
  unfold getCell write2d
  by_cases hm : m' = m
  · subst hm
    have hf : f' ≠ f := fun hf => h ⟨rfl, hf⟩
    by_cases hmlen : m' < za.length
    · rw [getD_set_self_tl za m' _ hmlen, getD_set_ne _ _ _ _ _ (fun hh => hf hh.symm)]
    · rw [List.set_eq_of_length_le (by omega)]
  · rw [getD_set_ne_tl za m m' _ (fun hh => hm hh.symm)]

theorem length_write2d (za : List Timeline) (m f v : Nat) :
    (write2d za m f v).length = za.length := List.length_set za m _

theorem getD_mem_of_lt (za : List Timeline) (m : Nat) (h : m < za.length) :
    za.getD m [] ∈ za := by
  rw [List.getD_eq_getElem?_getD, List.getElem?_eq_getElem h]
  exact List.getElem_mem h

/-- On a successful read, the decoded frame index reported is the
pre-advance cursor. -/
theorem read_next_fst (s : AppState) (hp : s.pos < s.frame_count) :
    (read_next s).1 = some s.pos := by
  unfold read_next
  rw [if_pos hp]
  by_cases hc : s.mouse_pressed = true ∧ s.pos + 1 < s.frame_count
  · rw [if_pos hc]
    cases hgl : gestureLabel s <;> simp
  · rw [if_neg hc]

/-- Closed form of `update_frame` when the gesture write fires: cursor
and frame number advance, one label lands at index
`(pos + 1) - 1 = pos`. -/
theorem update_frame_eq_write (s : AppState) (hp : s.pos < s.frame_count)
    (hc : s.mouse_pressed = true ∧ s.pos + 1 < s.frame_count)
    (lab : Nat) (hgl : gestureLabel s = some lab) :
    update_frame s =
      { s with
          pos := s.pos + 1
          current_frame := s.pos + 1
          zone_arrays := write2d s.zone_arrays s.current_mouse s.pos lab } := by
  unfold update_frame read_next writeLabel
  rw [if_pos hp, if_pos hc, hgl]
  simp

/-- Closed form of `update_frame` when no write fires (gesture not held,
new frame number at or past `frame_count`, or held with no intent):
only the cursor and the frame number move. -/
theorem update_frame_eq_nowrite (s : AppState) (hp : s.pos < s.frame_count)
    (hc : ¬(s.mouse_pressed = true ∧ s.pos + 1 < s.frame_count) ∨ gestureLabel s = none) :
    update_frame s = { s with pos := s.pos + 1, current_frame := s.pos + 1 } := by
  unfold update_frame read_next
  rw [if_pos hp]
  by_cases hcond : s.mouse_pressed = true ∧ s.pos + 1 < s.frame_count
  · rw [if_pos hcond]
    rcases hc with hc | hc
    · exact absurd hcond hc
    · rw [hc]
  · rw [if_neg hcond]

/-- Closed form of `update_frame` at end of stream: only the cursor is
rewound to 0. -/
theorem update_frame_eq_eos (s : AppState) (hp : ¬ s.pos < s.frame_count) :
    update_frame s = { s with pos := 0 } := by
  unfold update_frame read_next
  rw [if_neg hp]

/-! ### C9 — playback-driven writes stay within `[0, frame_count - 2]` -/

/-- C9: any cell changed by a single `update_frame` call is the active
subject's cell at index `pos` (the pre-advance cursor, which equals the
new `current_frame - 1`), and that index satisfies
`pos + 1 < frame_count`, so it lies in `[0, frame_count - 2]`: the
last-frame slot `frame_count - 1` and the sentinel slot `frame_count`
are never touched by a pointer gesture during playback.  (In the Nat
embedding the written index `current_frame - 1 = pos` is exact, never a
truncated negative: `current_frame = pos + 1 ≥ 1` after a successful
read.) -/
theorem C9_gesture_write_bounds (s : AppState) :
    ∀ m j, getCell (update_frame s).zone_arrays m j ≠ getCell s.zone_arrays m j →
      m = s.current_mouse ∧ j = s.pos ∧ s.pos + 1 < s.frame_count ∧
      j + 2 ≤ s.frame_count ∧ j ≠ s.frame_count - 1 ∧ j ≠ s.frame_count := by
  intro m j hne
  by_cases hp : s.pos < s.frame_count
  · by_cases h : s.mouse_pressed = true ∧ s.pos + 1 < s.frame_count
    · cases hgl : gestureLabel s with
      | none =>
        rw [update_frame_eq_nowrite s hp (Or.inr hgl)] at hne
        exact absurd rfl hne
      | some lab =>
        rw [update_frame_eq_write s hp h lab hgl] at hne
        by_cases hmj : m = s.current_mouse ∧ j = s.pos
        · exact ⟨hmj.1, hmj.2, h.2, by omega, by omega, by omega⟩
        · rw [getCell_write2d_other s.zone_arrays s.current_mouse s.pos lab m j hmj] at hne
          exact absurd rfl hne
    · rw [update_frame_eq_nowrite s hp (Or.inl h)] at hne
      exact absurd rfl hne
  · rw [update_frame_eq_eos s hp] at hne
    exact absurd rfl hne

/-! ### C1 — which index a held gesture writes on each frame advance -/

/-- The state of the C1 scenario before the gesture: 100-frame video,
one subject, on-screen frame number (= `current_frame` = decode cursor)
10. -/
def c1Start : AppState :=
  ⟨100, 10, 10, 1, 0, [List.replicate 101 0], false, false, none⟩

/-- The C1 scenario: press left (Zone A) while frame number 10 is
displayed, advance twice, release. -/
def c1Final : AppState :=
  mouse_release_event
    (update_frame (update_frame (mouse_press_event c1Start Button.left)))
    Button.left

/-- C1 counterexample: the claimed post-state `timeline[9] = ZoneA,
timeline[10] = ZoneA, timeline[11] = None` is false — the two advances
write indices 10 and 11, not 9 and 10, because `update_frame` stores the
post-read cursor in `current_frame` *before* writing at
`current_frame - 1`. -/
theorem C1_counterexample :
    ¬ (getCell c1Final.zone_arrays 0 9 = 1 ∧
       getCell c1Final.zone_arrays 0 10 = 1 ∧
       getCell c1Final.zone_arrays 0 11 = 0) := by
  decide

/-- C1 amended: each frame advance with a held Zone A gesture writes
exactly one label, value 1, at index `pos` — the pre-advance cursor,
i.e. the pre-advance on-screen frame number, equal to the new
`current_frame - 1` — provided the new frame number `pos + 1` is still
below `frame_count` (there is no lower guard: index 0 is written when
advancing from cursor 0); every other cell of every subject is
unchanged.  In the scenario (press Zone A at displayed frame number 10,
two advances, release) the writes land at indices 10 and 11, leaving
indices 9 and 12 unlabeled. -/
theorem C1_amended (s : AppState)
    (hpress : s.mouse_pressed = true)
    (hdel : s.delete_mode = false)
    (hzone : s.current_zone = some Zone.A)
    (hadv : s.pos + 1 < s.frame_count)
    (hm : s.current_mouse < s.zone_arrays.length)
    (hlen : s.pos < (s.zone_arrays.getD s.current_mouse []).length) :
    (getCell (update_frame s).zone_arrays s.current_mouse s.pos = 1 ∧
     (update_frame s).current_frame = s.pos + 1 ∧
     ∀ m j, ¬(m = s.current_mouse ∧ j = s.pos) →
       getCell (update_frame s).zone_arrays m j = getCell s.zone_arrays m j) ∧
    getCell c1Final.zone_arrays 0 10 = 1 ∧
    getCell c1Final.zone_arrays 0 11 = 1 ∧
    getCell c1Final.zone_arrays 0 9 = 0 ∧
    getCell c1Final.zone_arrays 0 12 = 0 := by
  have hp : s.pos < s.frame_count := by omega
  have hgl : gestureLabel s = some 1 := by
    unfold gestureLabel
    rw [if_neg (by simp [hdel]), hzone]
  have hchar := update_frame_eq_write s hp ⟨hpress, hadv⟩ 1 hgl
  refine ⟨⟨?_, ?_, ?_⟩, by decide, by decide, by decide, by decide⟩
  · rw [hchar]
    exact getCell_write2d_same s.zone_arrays s.current_mouse s.pos 1 hm hlen
  · rw [hchar]
  · intro m j hmj
    rw [hchar]
    exact getCell_write2d_other s.zone_arrays s.current_mouse s.pos 1 m j hmj

/-- Witness for C1 amended: the first advance of the scenario itself,
from the pressed state (cursor 10, Zone A held). -/
theorem C1_amended_witness :
    getCell (update_frame (mouse_press_event c1Start Button.left)).zone_arrays 0 10 = 1 ∧
    getCell (update_frame (mouse_press_event c1Start Button.left)).zone_arrays 0 9 = 0 := by
  have h := C1_amended (mouse_press_event c1Start Button.left)
    (by decide) (by decide) (by decide) (by decide) (by decide) (by decide)
  exact ⟨h.1.1, by rw [h.1.2.2 0 9 (by decide)]; decide⟩

/-- Witness for C9 at a concrete changed cell: the first advance of the
C1 scenario changes subject 0's cell 10, and the theorem places that
write at the active subject, index `pos = 10`, within
`[0, frame_count - 2]`, away from the last-frame and sentinel slots. -/
theorem C9_gesture_write_bounds_witness :
    0 = (mouse_press_event c1Start Button.left).current_mouse ∧
    10 = (mouse_press_event c1Start Button.left).pos ∧
    (mouse_press_event c1Start Button.left).pos + 1 <
      (mouse_press_event c1Start Button.left).frame_count ∧
    10 + 2 ≤ (mouse_press_event c1Start Button.left).frame_count ∧
    10 ≠ (mouse_press_event c1Start Button.left).frame_count - 1 ∧
    10 ≠ (mouse_press_event c1Start Button.left).frame_count :=
  C9_gesture_write_bounds (mouse_press_event c1Start Button.left) 0 10 (by decide)

/-! ### C4 — loop on end of stream -/

/-- C4: when `read_next` runs with the decode cursor at or past the last
frame, `cap.read()` fails; the code raises nothing, repositions the
cursor to frame 0 and leaves everything else (zone arrays, frame count,
displayed frame number) unchanged, so the next read decodes frame 0. -/
theorem C4_loop_on_end (s : AppState) (hfc : 0 < s.frame_count)
    (heos : s.frame_count ≤ s.pos) :
    (read_next s).1 = none ∧
    (read_next s).2.pos = 0 ∧
    (read_next s).2.zone_arrays = s.zone_arrays ∧
    (read_next s).2.current_frame = s.current_frame ∧
    (read_next s).2.frame_count = s.frame_count ∧
    (read_next (read_next s).2).1 = some 0 := by
  have hnot : ¬ s.pos < s.frame_count := by omega
  have h2 : read_next s = (none, { s with pos := 0 }) := by
    unfold read_next
    rw [if_neg hnot]
  rw [h2]
  refine ⟨rfl, rfl, rfl, rfl, rfl, ?_⟩
  have := read_next_fst { s with pos := 0 } (by simpa using hfc)
  simpa using this

/-- An end-of-stream state: 3-frame video, cursor past the last frame. -/
def c4State : AppState :=
  ⟨3, 3, 3, 1, 0, [[0, 0, 0, 0]], false, false, none⟩

/-- Witness for C4 at a concrete end-of-stream state. -/
theorem C4_loop_on_end_witness :
    (read_next c4State).1 = none ∧
    (read_next c4State).2.pos = 0 ∧
    (read_next c4State).2.zone_arrays = c4State.zone_arrays ∧
    (read_next (read_next c4State).2).1 = some 0 := by
  have h := C4_loop_on_end c4State (by decide) (by decide)
  exact ⟨h.1, h.2.1, h.2.2.1, h.2.2.2.2.2⟩

/-! ### C6 — subject-count resize preserves timelines -/

/-- The copy loop of `mouse_count_changed` keeps the length of the fresh
array list. -/
theorem copy_foldl_length (old fresh : List Timeline) (k : Nat) :
    ((List.range k).foldl
      (fun acc i => if i < old.length ∧ i < acc.length then acc.set i (old.getD i []) else acc)
      fresh).length = fresh.length := by
  induction k with
  | zero => rfl
  | succ n ih =>
    rw [List.range_succ, List.foldl_append]
    set A := (List.range n).foldl
      (fun acc i => if i < old.length ∧ i < acc.length then acc.set i (old.getD i []) else acc)
      fresh with hA
    simp only [List.foldl_cons, List.foldl_nil]
    by_cases hc : n < old.length ∧ n < A.length
    · rw [if_pos hc, List.length_set]
      exact ih
    · rw [if_neg hc]
      exact ih

/-- Element-wise description of the copy loop of `mouse_count_changed`:
slot `j` holds the old subject `j` when `j` is below the loop bound and
both length guards pass, otherwise the fresh value. -/
theorem copy_foldl_getD (old fresh : List Timeline) (k : Nat) (j : Nat) :
    ((List.range k).foldl
      (fun acc i => if i < old.length ∧ i < acc.length then acc.set i (old.getD i []) else acc)
      fresh).getD j [] =
    if j < k ∧ j < old.length ∧ j < fresh.length then old.getD j [] else fresh.getD j [] := by
  induction k with
  | zero =>
    simp only [List.range_zero, List.foldl_nil]
    rw [if_neg (by omega)]
  | succ n ih =>
    rw [List.range_succ, List.foldl_append]
    set A := (List.range n).foldl
      (fun acc i => if i < old.length ∧ i < acc.length then acc.set i (old.getD i []) else acc)
      fresh with hA
    have hAlen : A.length = fresh.length := copy_foldl_length old fresh n
    simp only [List.foldl_cons, List.foldl_nil]
    by_cases hc : n < old.length ∧ n < A.length
    · rw [if_pos hc]
      by_cases hj : j = n
      · subst hj
        rw [getD_set_self_tl A j _ hc.2]
        rw [if_pos ⟨by omega, hc.1, by omega⟩]
      · rw [getD_set_ne_tl A n j _ (fun hh => hj hh.symm), ih]
        by_cases h1 : j < n ∧ j < old.length ∧ j < fresh.length
        · rw [if_pos h1, if_pos ⟨by omega, h1.2⟩]
        · rw [if_neg h1, if_neg (by omega)]
    · rw [if_neg hc, ih]
      have hc2 : ¬ (n < old.length ∧ n < fresh.length) := by
        rw [hAlen] at hc; exact hc
      by_cases h1 : j < n ∧ j < old.length ∧ j < fresh.length
      · rw [if_pos h1, if_pos ⟨by omega, h1.2⟩]
      · rw [if_neg h1, if_neg (by omega)]

/-- `mouse_count_changed` on a loaded video with existing arrays reduces
to the copy loop over fresh zero arrays. -/
theorem mouse_count_changed_char (s : AppState) (M : Nat)
    (hfc : 0 < s.frame_count) (hne : s.zone_arrays ≠ []) :
    (mouse_count_changed s M).zone_arrays =
      (List.range (min s.mouse_count M)).foldl
        (fun acc i =>
          if i < s.zone_arrays.length ∧ i < acc.length then
            acc.set i (s.zone_arrays.getD i [])
          else acc)
        (List.replicate M (List.replicate (s.frame_count + 1) 0)) ∧
    (mouse_count_changed s M).mouse_count = M ∧
    (mouse_count_changed s M).frame_count = s.frame_count := by
  unfold mouse_count_changed
  rw [if_pos hfc]
  have hemp : s.zone_arrays.isEmpty = false := by
    simpa [List.isEmpty_iff] using hne
  simp only [hemp, Bool.false_eq_true, if_false]
  refine ⟨?_, ?_, ?_⟩ <;> trivial

/-- C6: changing the subject count from `N` to `M` keeps every subject
`i < min N M` element-wise identical, gives every new subject an
all-None timeline of length `frame_count + 1`, and an increase followed
by a decrease back to `N` restores every original subject's timeline. -/
theorem C6_resize_preserves (s : AppState) (M : Nat)
    (hfc : 0 < s.frame_count)
    (hne : s.zone_arrays ≠ [])
    (hlen : s.zone_arrays.length = s.mouse_count)
    (hM : 1 ≤ M) :
    ((mouse_count_changed s M).zone_arrays.length = M ∧
     ∀ i, i < min s.mouse_count M →
       (mouse_count_changed s M).zone_arrays.getD i [] = s.zone_arrays.getD i []) ∧
    (∀ i, min s.mouse_count M ≤ i → i < M →
       (mouse_count_changed s M).zone_arrays.getD i [] = List.replicate (s.frame_count + 1) 0) ∧
    (s.mouse_count ≤ M → ∀ i, i < s.mouse_count →
       (mouse_count_changed (mouse_count_changed s M) s.mouse_count).zone_arrays.getD i []
         = s.zone_arrays.getD i []) := by
  obtain ⟨hza, hmc, hfcM⟩ := mouse_count_changed_char s M hfc hne
  have hzalen : (mouse_count_changed s M).zone_arrays.length = M := by
    rw [hza, copy_foldl_length, List.length_replicate]
  have hget : ∀ i, i < min s.mouse_count M →
      (mouse_count_changed s M).zone_arrays.getD i [] = s.zone_arrays.getD i [] := by
    intro i hi
    rw [hza, copy_foldl_getD]
    rw [if_pos ⟨hi, by omega, by rw [List.length_replicate]; omega⟩]
  refine ⟨⟨hzalen, hget⟩, ?_, ?_⟩
  · intro i h1 h2
    rw [hza, copy_foldl_getD]
    rw [if_neg (by omega), getD_replicate _ _ _ _ h2]
  · intro hNM i hi
    have hne2 : (mouse_count_changed s M).zone_arrays ≠ [] := by
      intro hnil
      rw [hnil] at hzalen
      simp at hzalen
      omega
    have hfc2 : 0 < (mouse_count_changed s M).frame_count := by rw [hfcM]; exact hfc
    obtain ⟨hza2, _, _⟩ :=
      mouse_count_changed_char (mouse_count_changed s M) s.mouse_count hfc2 hne2
    rw [hza2, copy_foldl_getD]
    rw [hmc]
    have hmin : min M s.mouse_count = s.mouse_count := by omega
    rw [if_pos ⟨by omega, by rw [hzalen]; omega,
        by rw [List.length_replicate]; omega⟩]
    rw [hget i (by omega)]

/-- A concrete loaded state for the C6 witness: 2-frame video, two
subjects with distinct labels. -/
def c6State : AppState :=
  ⟨2, 0, 0, 2, 0, [[0, 1, 0], [2, 0, 0]], false, false, none⟩

/-- Witness for C6 at a concrete state: grow 2 → 3 subjects, then
shrink back; subject 0 and 1 keep their labels, subject 2 is fresh. -/
theorem C6_resize_preserves_witness :
    (mouse_count_changed c6State 3).zone_arrays.getD 0 [] = [0, 1, 0] ∧
    (mouse_count_changed c6State 3).zone_arrays.getD 2 [] = [0, 0, 0] ∧
    (mouse_count_changed (mouse_count_changed c6State 3) c6State.mouse_count).zone_arrays.getD 1 []
      = [2, 0, 0] := by
  have h := C6_resize_preserves c6State 3 (by decide) (by decide) (by decide) (by decide)
  refine ⟨?_, ?_, ?_⟩
  · rw [h.1.2 0 (by decide)]
    decide
  · rw [h.2.1 2 (by decide) (by decide)]
    decide
  · rw [h.2.2 (by decide) 1 (by decide)]
    decide

/-! ### C8 — playback clock intervals -/

/-- The state behind `self.timer` and `self.playback_speed`: whether the
timer runs, its last scheduled interval in milliseconds, and the spinbox
percentage (`playback_speed = speed_percent / 100`).  The Python float
expressions `int(30 / playback_speed)` and `int(100 / playback_speed)`
are modelled in exact arithmetic as `3000 / percent` and
`10000 / percent` (Nat division = floor of the nonnegative quotient);
at the concrete inputs used below the float computation is exact. -/
structure ClockState where
  active : Bool
  interval : Nat
  speed_percent : Nat
deriving DecidableEq, Repr

/-- `toggle_play` (source lines 483-489): stop if running, else start
ticking at `int(30 / playback_speed)` milliseconds. -/
def toggle_play (c : ClockState) : ClockState :=
  if c.active then { c with active := false }
  else { c with active := true, interval := 3000 / c.speed_percent }

/-- `speed_changed` (source lines 476-481): store the new percentage;
if the timer is active, restart it at `int(100 / playback_speed)`
milliseconds, else change nothing else. -/
def speed_changed (c : ClockState) (percent : Nat) : ClockState :=
  if c.active then { c with speed_percent := percent, interval := 10000 / percent }
  else { c with speed_percent := percent }

/-- C8 counterexample: at the same rate multiplier 1.0 (spinbox 100%),
starting playback schedules a 30 ms tick but changing the speed while
running schedules a 100 ms tick — the two paths do not share one base
interval. -/
theorem C8_counterexample :
    (toggle_play ⟨false, 0, 100⟩).interval ≠
    (speed_changed ⟨true, 0, 100⟩ 100).interval := by
  decide

/-- C8 amended: `toggle_play` starts the timer at `⌊3000 / percent⌋` ms
(base 30 ms), `speed_changed` while running restarts it at
`⌊10000 / percent⌋` ms (base 100 ms), and `speed_changed` while stopped
only updates the stored rate; for every percentage in the spinbox range
1–500 the two scheduled intervals differ. -/
theorem C8_amended (p : Nat) (hp1 : 1 ≤ p) (hp2 : p ≤ 500) (c : ClockState) :
    (c.active = false →
       toggle_play c = { c with active := true, interval := 3000 / c.speed_percent }) ∧
    (c.active = true →
       speed_changed c p = { c with speed_percent := p, interval := 10000 / p }) ∧
    (c.active = false → speed_changed c p = { c with speed_percent := p }) ∧
    3000 / p < 10000 / p := by
  refine ⟨?_, ?_, ?_, ?_⟩
  · intro h
    unfold toggle_play
    rw [if_neg (by rw [h]; exact Bool.false_ne_true)]
  · intro h
    unfold speed_changed
    rw [if_pos h]
  · intro h
    unfold speed_changed
    rw [if_neg (by rw [h]; exact Bool.false_ne_true)]
  · have hp0 : 0 < p := hp1
    have h1 : (3000 / p) * p ≤ 3000 := Nat.div_mul_le_self _ _
    have h2 : 3000 / p + 14 ≤ 10000 / p := by
      rw [Nat.le_div_iff_mul_le hp0]
      have h3 : 14 * p ≤ 7000 := by omega
      have h4 : (3000 / p + 14) * p = (3000 / p) * p + 14 * p := by ring
      omega
    omega

/-- Witness for C8 amended at 100% speed: play starts a 30 ms timer,
a speed change while running sets a 100 ms timer, and while stopped it
only stores the rate. -/
theorem C8_amended_witness :
    toggle_play ⟨false, 0, 100⟩ = ⟨true, 30, 100⟩ ∧
    speed_changed ⟨true, 30, 100⟩ 100 = ⟨true, 100, 100⟩ ∧
    speed_changed ⟨false, 30, 100⟩ 100 = ⟨false, 30, 100⟩ ∧
    3000 / 100 < 10000 / 100 := by
  have h1 := C8_amended 100 (by decide) (by decide) (⟨false, 0, 100⟩ : ClockState)
  have h2 := C8_amended 100 (by decide) (by decide) (⟨true, 30, 100⟩ : ClockState)
  have h3 := C8_amended 100 (by decide) (by decide) (⟨false, 30, 100⟩ : ClockState)
  refine ⟨?_, ?_, ?_, h1.2.2.2⟩
  · rw [h1.1 rfl]
    decide
  · rw [h2.2.1 rfl]
  · rw [h3.2.2.1 rfl]

/-! ### C5 — timeline renderer division guard -/

/-- Drawing primitives issued by the two paint handlers. -/
inductive DrawCmd where
  | fillRect (x w : Int) (r g b : Nat)
  | vline (x : Int)
deriving DecidableEq, Repr

/-- Python 3 true division `a / b` on integers: a float, except that
`b = 0` raises `ZeroDivisionError` (modelled as `none`). -/
def pyDiv (a b : Nat) : Option ℚ :=
  if b = 0 then none else some ((a : ℚ) / (b : ℚ))

/-- `CustomSlider.paintEvent` (source lines 62-80): return (drawing
nothing) when `frame_count == 0`; otherwise fill the background, compute
`frame_width = width / (frame_count - 1)` — a division by zero when
`frame_count = 1` — and draw the indicator at
`int(current_frame * frame_width)` when `current_frame < frame_count`
(Python `int` truncation = floor on these nonnegative values). -/
def customSliderPaint (frame_count current_frame w hgt : Nat) : Option (List DrawCmd) :=
  if frame_count = 0 then some []
  else
    match pyDiv w (frame_count - 1) with
    | none => none
    | some fw =>
        some (DrawCmd.fillRect 0 (w : Int) 255 255 255 ::
          (if current_frame < frame_count then
            [DrawCmd.vline (Int.floor ((current_frame : ℚ) * fw))]
          else []))

/-- `AnnotationBar.paintEvent` (source lines 120-140): return when
`frame_count == 0` or no zone array is attached; otherwise fill the
background, compute the same `width / (frame_count - 1)`, and paint a
red/blue segment `[int(i * fw), int(i * fw) + int(fw) + 1)` for every
labeled frame. -/
def annotationBarPaint (frame_count : Nat) (zone_array : Option (List Nat))
    (w hgt : Nat) : Option (List DrawCmd) :=
  if frame_count = 0 ∨ zone_array = none then some []
  else
    match pyDiv w (frame_count - 1) with
    | none => none
    | some fw =>
        some (DrawCmd.fillRect 0 (w : Int) 255 255 255 ::
          (List.range frame_count).filterMap (fun i =>
            if (zone_array.getD []).getD i 0 = 1 then
              some (DrawCmd.fillRect (Int.floor ((i : ℚ) * fw)) (Int.floor fw + 1) 255 0 0)
            else if (zone_array.getD []).getD i 0 = 2 then
              some (DrawCmd.fillRect (Int.floor ((i : ℚ) * fw)) (Int.floor fw + 1) 0 0 255)
            else none))

/-- C5: the guards of both paint handlers test `frame_count == 0` only,
so a loaded one-frame video (`frame_count = 1`) reaches
`width / (frame_count - 1)` and divides by zero (a raised
`ZeroDivisionError`, modelled `none`) instead of the no-op the spec
requires; `frame_count = 0` is a genuine no-op. -/
theorem C5_frame_count_one_divides_by_zero :
    customSliderPaint 1 0 640 20 = none ∧
    annotationBarPaint 1 (some [0, 0]) 640 20 = none ∧
    customSliderPaint 0 0 640 20 = some [] ∧
    annotationBarPaint 0 none 640 20 = some [] := by
  refine ⟨rfl, ?_, rfl, rfl⟩
  unfold annotationBarPaint
  rw [if_neg (by simp)]
  rfl

/-! ### Lemmas about the decimal codec and header parsing -/

theorem digitVal_digitChar {d : Nat} (h : d < 10) : digitVal (digitChar d) = d := by
  interval_cases d <;> decide

theorem isDigitCh_digitChar {d : Nat} (h : d < 10) : isDigitCh (digitChar d) = true := by
  interval_cases d <;> decide

theorem natToChars_all_digits (n : Nat) :
    ∀ c ∈ natToChars n, isDigitCh c = true := by
  intro c hc
  unfold natToChars at hc
  by_cases h0 : n = 0
  · rw [if_pos h0] at hc
    simp only [List.mem_singleton] at hc
    subst hc
    decide
  · rw [if_neg h0, List.mem_reverse, List.mem_map] at hc
    obtain ⟨d, hd, rfl⟩ := hc
    exact isDigitCh_digitChar (Nat.digits_lt_base (by norm_num) hd)

theorem natToChars_no_space (n : Nat) : ' ' ∉ natToChars n := by
  intro hmem
  have := natToChars_all_digits n ' ' hmem
  exact absurd this (by decide)

theorem natToChars_ne_nil (n : Nat) : natToChars n ≠ [] := by
  unfold natToChars
  by_cases h0 : n = 0
  · rw [if_pos h0]
    exact List.cons_ne_nil _ _
  · rw [if_neg h0]
    simp only [ne_eq, List.reverse_eq_nil_iff, List.map_eq_nil_iff]
    exact Nat.digits_ne_nil_iff_ne_zero.mpr h0

/-- Python round trip: `int(str(n)) = n` on the frame numbers the
program writes. -/
theorem parse_natToChars (n : Nat) : parsePyNat (natToChars n) = some n := by
  unfold parsePyNat
  rw [if_pos ⟨natToChars_ne_nil n, List.all_eq_true.mpr (natToChars_all_digits n)⟩]
  congr 1
  by_cases h0 : n = 0
  · subst h0
    decide
  · unfold natToChars
    rw [if_neg h0, List.map_reverse, List.reverse_reverse, List.map_map]
    have hcong : ∀ d ∈ Nat.digits 10 n, (digitVal ∘ digitChar) d = id d :=
      fun d hd => digitVal_digitChar (Nat.digits_lt_base (by norm_num) hd)
    rw [List.map_congr_left hcong, List.map_id, Nat.ofDigits_digits]

theorem splitCh_no_sep (sep : Char) (l : List Char) (h : sep ∉ l) :
    splitCh sep l = [l] := by
  induction l with
  | nil => rfl
  | cons c cs ih =>
    have hc : ¬ c = sep := fun hh => h (hh ▸ List.mem_cons_self c cs)
    have hcs : sep ∉ cs := fun hh => h (List.mem_cons_of_mem c hh)
    simp [splitCh, hc, ih hcs]

theorem splitCh_mouse_cell (ds : List Char) (hds : ' ' ∉ ds) :
    splitCh ' ' (['M', 'o', 'u', 's', 'e', ' '] ++ ds) =
      [['M', 'o', 'u', 's', 'e'], ds] := by
  simp [splitCh, splitCh_no_sep ' ' ds hds]

theorem parseMouseCol_saved (k : Nat) :
    parseMouseCol (['M', 'o', 'u', 's', 'e', ' '] ++ natToChars k) = some k := by
  unfold parseMouseCol
  rw [if_pos (by simp [startsWithCh])]
  rw [splitCh_mouse_cell (natToChars k) (natToChars_no_space k)]
  exact parse_natToChars k

theorem parseMouseCol_frame : parseMouseCol ['F', 'r', 'a', 'm', 'e'] = none := by
  decide

theorem pyEnum_map_range' {α : Type} (g : Nat → α) :
    ∀ (n a d : Nat), pyEnum (a + d) ((List.range' a n).map g) =
      (List.range' a n).map fun j => (j + d, g j) := by
  intro n
  induction n with
  | zero => intro a d; rfl
  | succ n ih =>
    intro a d
    rw [List.range'_succ]
    simp only [List.map_cons, pyEnum]
    have hd : a + d + 1 = (a + 1) + d := by omega
    rw [hd, ih (a + 1) d]

theorem filterMap_eq_map_of_some {α β : Type} (f : α → Option β) (g : α → β) :
    ∀ l : List α, (∀ a ∈ l, f a = some (g a)) → l.filterMap f = l.map g := by
  intro l
  induction l with
  | nil => intro _; rfl
  | cons a l ih =>
    intro h
    rw [List.filterMap_cons, h a (List.mem_cons_self a l), List.map_cons,
      ih (fun b hb => h b (List.mem_cons_of_mem a hb))]

/-- Parsing the header that `save_results` writes recovers exactly the
columns `(i + 1, mouse number i + 1)` for `i < mc`. -/
theorem mouseColumns_saveHeader (mc : Nat) :
    mouseColumns (saveHeader mc) = (List.range mc).map fun j => (j + 1, j + 1) := by
  unfold mouseColumns saveHeader
  rw [List.range_eq_range']
  simp only [pyEnum]
  have h0 : (0 : Nat) + 1 = 1 := rfl
  rw [show (1 : Nat) = 0 + 1 from rfl, pyEnum_map_range']
  rw [List.filterMap_cons]
  rw [show parseMouseCol ['F', 'r', 'a', 'm', 'e'] = none from parseMouseCol_frame]
  simp only [Option.map_none]
  rw [List.filterMap_map]
  apply filterMap_eq_map_of_some
  intro j hj
  show (parseMouseCol (['M', 'o', 'u', 's', 'e', ' '] ++ natToChars (j + 1))).map
      (fun mn => (j + 1, mn)) = some (j + 1, j + 1)
  rw [parseMouseCol_saved (j + 1)]
  rfl

theorem insertByKey_le_head (p : Nat × Nat) (l : List (Nat × Nat))
    (h : ∀ q ∈ l, p.2 ≤ q.2) : insertByKey p l = p :: l := by
  cases l with
  | nil => rfl
  | cons q qs =>
    unfold insertByKey
    rw [if_pos (h q (List.mem_cons_self q qs))]

theorem sortByKey_of_sorted (l : List (Nat × Nat))
    (h : l.Pairwise fun p q => p.2 ≤ q.2) : sortByKey l = l := by
  induction l with
  | nil => rfl
  | cons p ps ih =>
    rw [List.pairwise_cons] at h
    show insertByKey p (sortByKey ps) = p :: ps
    rw [ih h.2]
    exact insertByKey_le_head p ps h.1

theorem saveHeader_cols_sorted (mc : Nat) :
    sortByKey ((List.range mc).map fun j => (j + 1, j + 1)) =
      (List.range mc).map fun j => (j + 1, j + 1) := by
  apply sortByKey_of_sorted
  rw [List.pairwise_map]
  apply List.Pairwise.imp (fun hlt => Nat.le_of_lt (Nat.succ_lt_succ hlt))
  exact List.pairwise_lt_range mc

theorem getLast_map_range {α : Type} (f : Nat → α) (n : Nat) (h : 1 ≤ n) :
    ((List.range n).map f).getLast? = some (f (n - 1)) := by
  obtain ⟨k, rfl⟩ : ∃ k, n = k + 1 := ⟨n - 1, by omega⟩
  rw [List.range_succ, List.map_append]
  simp

/-! ### Lemmas about saved rows and row application -/

theorem savedRow_length (mc : Nat) (za : List Timeline) (f : Nat) :
    (savedRow mc za f).length = mc + 1 := by
  simp [savedRow]

theorem savedRow_getD_zero (mc : Nat) (za : List Timeline) (f : Nat) :
    (savedRow mc za f).getD 0 [] = natToChars f :=
  List.getD_cons_zero

theorem savedRow_getD_succ (mc : Nat) (za : List Timeline) (f m : Nat) (h : m < mc) :
    (savedRow mc za f).getD (m + 1) [] = zoneStr (getCell za m f) := by
  unfold savedRow
  rw [List.getD_cons_succ]
  exact getD_map_range _ mc m [] h

theorem mem_write2d (fc : Nat) (acc : List Timeline) (m f v : Nat)
    (hacc : ∀ tl ∈ acc, tl.length = fc + 1) :
    ∀ tl ∈ write2d acc m f v, tl.length = fc + 1 := by
  intro tl htl
  unfold write2d at htl
  by_cases hm : m < acc.length
  · rcases List.mem_or_eq_of_mem_set htl with h | h
    · exact hacc tl h
    · subst h
      rw [List.length_set]
      exact hacc _ (getD_mem acc m [] hm)
  · rw [List.set_eq_of_length_le (by omega)] at htl
    exact hacc tl htl

theorem applyRow_parse_some (fc : Nat) (cols : List (Nat × Nat)) (acc : List Timeline)
    (row : List (List Char)) (fn : Nat) (h2 : 1 < row.length)
    (hp : parsePyNat (row.getD 0 []) = some fn) (hlt : fn < fc) :
    applyRow fc cols acc row = cols.foldl (applyRowStep row fn) acc := by
  unfold applyRow
  rw [if_pos h2, hp]
  show (if fn < fc then cols.foldl (applyRowStep row fn) acc else acc) = _
  rw [if_pos hlt]

theorem applyRow_skip (fc : Nat) (cols : List (Nat × Nat)) (acc : List Timeline)
    (row : List (List Char))
    (h : ¬ 1 < row.length ∨ parsePyNat (row.getD 0 []) = none ∨
         ∃ fn, parsePyNat (row.getD 0 []) = some fn ∧ fc ≤ fn) :
    applyRow fc cols acc row = acc := by
  unfold applyRow
  rcases h with h | h | ⟨fn, hfn, hge⟩
  · rw [if_neg h]
  · by_cases hl : 1 < row.length
    · rw [if_pos hl, h]
    · rw [if_neg hl]
  · by_cases hl : 1 < row.length
    · rw [if_pos hl, hfn]
      show (if fn < fc then cols.foldl (applyRowStep row fn) acc else acc) = acc
      rw [if_neg (by omega)]
    · rw [if_neg hl]

/-- Applying the column fold of one saved row for frame `f` over the
column list `[(a+1, a+1), …, (a+k, a+k)]`: lengths are preserved and the
cells of subjects `a ≤ m < a + k` at index `f` become the saved label
when it was `A`/`B`, everything else is untouched. -/
theorem inner_fold_char (mc fc : Nat) (orig : List Timeline) (f : Nat) (hf : f < fc) :
    ∀ (k a : Nat), a + k ≤ mc → ∀ acc : List Timeline,
      acc.length = mc → (∀ tl ∈ acc, tl.length = fc + 1) →
      ((((List.range' a k).map fun j => (j + 1, j + 1)).foldl
          (applyRowStep (savedRow mc orig f) f) acc).length = mc ∧
       (∀ tl ∈ ((List.range' a k).map fun j => (j + 1, j + 1)).foldl
          (applyRowStep (savedRow mc orig f) f) acc, tl.length = fc + 1) ∧
       ∀ m g, getCell (((List.range' a k).map fun j => (j + 1, j + 1)).foldl
          (applyRowStep (savedRow mc orig f) f) acc) m g =
         if a ≤ m ∧ m < a + k ∧ g = f ∧ (getCell orig m f = 1 ∨ getCell orig m f = 2)
         then getCell orig m f else getCell acc m g) := by
  intro k
  induction k with
  | zero =>
    intro a hak acc hlen hmem
    have hnil : List.range' a 0 = [] := rfl
    rw [hnil]
    simp only [List.map_nil, List.foldl_nil]
    refine ⟨hlen, hmem, ?_⟩
    intro m g
    rw [if_neg (by omega)]
  | succ k ih =>
    intro a hak acc hlen hmem
    rw [List.range'_succ, List.map_cons, List.foldl_cons]
    have ha : a < mc := by omega
    have hcell : (savedRow mc orig f).getD (a + 1) [] = zoneStr (getCell orig a f) :=
      savedRow_getD_succ mc orig f a ha
    have hlt : a + 1 < (savedRow mc orig f).length := by
      rw [savedRow_length]; omega
    have hstep :
        applyRowStep (savedRow mc orig f) f acc (a + 1, a + 1) =
          if getCell orig a f = 1 then write2d acc a f 1
          else if getCell orig a f = 2 then write2d acc a f 2
          else acc := by
      unfold applyRowStep
      rw [if_pos hlt, hcell]
      by_cases h1 : getCell orig a f = 1
      · rw [h1]
        rw [if_pos (by decide), if_pos rfl]
        simp
      · rw [if_neg h1]
        by_cases h2 : getCell orig a f = 2
        · rw [h2]
          rw [if_neg (by decide), if_pos (by decide), if_pos rfl]
          simp
        · rw [if_neg h2]
          have hz : zoneStr (getCell orig a f) = [] := by
            unfold zoneStr
            rw [if_neg h1, if_neg h2]
          rw [hz, if_neg (by decide), if_neg (by decide)]
    have hflen : f < fc + 1 := by omega
    have hstep_len :
        (applyRowStep (savedRow mc orig f) f acc (a + 1, a + 1)).length = mc := by
      rw [hstep]
      split_ifs <;> simp [write2d, List.length_set, hlen]
    have hstep_mem :
        ∀ tl ∈ applyRowStep (savedRow mc orig f) f acc (a + 1, a + 1),
          tl.length = fc + 1 := by
      rw [hstep]
      split_ifs
      · exact mem_write2d fc acc a f 1 hmem
      · exact mem_write2d fc acc a f 2 hmem
      · exact hmem
    have hstep_cell :
        ∀ m g, getCell (applyRowStep (savedRow mc orig f) f acc (a + 1, a + 1)) m g =
          if m = a ∧ g = f ∧ (getCell orig a f = 1 ∨ getCell orig a f = 2)
          then getCell orig a f else getCell acc m g := by
      intro m g
      have hma : a < acc.length := by omega
      have hfa : f < (acc.getD a []).length := by
        rw [hmem (acc.getD a []) (getD_mem acc a [] hma)]
        omega
      rw [hstep]
      by_cases h1 : getCell orig a f = 1
      · rw [if_pos h1]
        by_cases hmg : m = a ∧ g = f
        · obtain ⟨rfl, rfl⟩ := hmg
          rw [getCell_write2d_same acc m g 1 hma hfa, if_pos ⟨rfl, rfl, Or.inl h1⟩, h1]
        · rw [getCell_write2d_other acc a f 1 m g hmg,
            if_neg (fun hh => hmg ⟨hh.1, hh.2.1⟩)]
      · rw [if_neg h1]
        by_cases h2 : getCell orig a f = 2
        · rw [if_pos h2]
          by_cases hmg : m = a ∧ g = f
          · obtain ⟨rfl, rfl⟩ := hmg
            rw [getCell_write2d_same acc m g 2 hma hfa, if_pos ⟨rfl, rfl, Or.inr h2⟩, h2]
          · rw [getCell_write2d_other acc a f 2 m g hmg,
              if_neg (fun hh => hmg ⟨hh.1, hh.2.1⟩)]
        · rw [if_neg h2, if_neg (fun hh => hh.2.2.elim h1 h2)]
    obtain ⟨hL, hM, hC⟩ := ih (a + 1) (by omega)
      (applyRowStep (savedRow mc orig f) f acc (a + 1, a + 1)) hstep_len hstep_mem
    refine ⟨hL, hM, ?_⟩
    intro m g
    rw [hC m g, hstep_cell m g]
    by_cases hm1 : a + 1 ≤ m ∧ m < a + 1 + k ∧ g = f ∧
        (getCell orig m f = 1 ∨ getCell orig m f = 2)
    · rw [if_pos hm1, if_pos ⟨by omega, by omega, hm1.2.2⟩]
    · rw [if_neg hm1]
      by_cases hm2 : m = a ∧ g = f ∧ (getCell orig a f = 1 ∨ getCell orig a f = 2)
      · obtain ⟨hma, hgf, hor⟩ := hm2
        have hcond1 : m = a ∧ g = f ∧ (getCell orig a f = 1 ∨ getCell orig a f = 2) :=
          ⟨hma, hgf, hor⟩
        have hcond2 : a ≤ m ∧ m < a + (k + 1) ∧ g = f ∧
            (getCell orig m f = 1 ∨ getCell orig m f = 2) :=
          ⟨by omega, by omega, hgf, by rw [hma]; exact hor⟩
        rw [if_pos hcond1, if_pos hcond2, hma]
      · rw [if_neg hm2]
        rw [if_neg ?hneg]
        case hneg =>
          intro hh
          obtain ⟨hh1, hh2, hh3, hh4⟩ := hh
          by_cases hma : m = a
          · subst hma
            exact hm2 ⟨rfl, hh3, hh4⟩
          · exact hm1 ⟨by omega, by omega, hh3, hh4⟩

/-- Folding the saved rows for frames `b, …, b + j - 1` into the arrays:
lengths are preserved, and every cell `(m, g)` with `m < mc` and
`b ≤ g < b + j` whose saved label was `A`/`B` takes the original value,
everything else is untouched. -/
theorem rows_fold_char (mc fc : Nat) (orig : List Timeline) (hmc : 1 ≤ mc) :
    ∀ (j b : Nat), b + j ≤ fc → ∀ acc : List Timeline,
      acc.length = mc → (∀ tl ∈ acc, tl.length = fc + 1) →
      ((((List.range' b j).map (savedRow mc orig)).foldl
          (applyRow fc ((List.range mc).map fun i => (i + 1, i + 1))) acc).length = mc ∧
       (∀ tl ∈ ((List.range' b j).map (savedRow mc orig)).foldl
          (applyRow fc ((List.range mc).map fun i => (i + 1, i + 1))) acc,
          tl.length = fc + 1) ∧
       ∀ m g, getCell (((List.range' b j).map (savedRow mc orig)).foldl
          (applyRow fc ((List.range mc).map fun i => (i + 1, i + 1))) acc) m g =
         if m < mc ∧ b ≤ g ∧ g < b + j ∧ (getCell orig m g = 1 ∨ getCell orig m g = 2)
         then getCell orig m g else getCell acc m g) := by
  intro j
  induction j with
  | zero =>
    intro b hbj acc hlen hmem
    have hnil : List.range' b 0 = [] := rfl
    rw [hnil]
    simp only [List.map_nil, List.foldl_nil]
    refine ⟨hlen, hmem, ?_⟩
    intro m g
    rw [if_neg (by omega)]
  | succ j ih =>
    intro b hbj acc hlen hmem
    rw [List.range'_succ, List.map_cons, List.foldl_cons]
    have happ : applyRow fc ((List.range mc).map fun i => (i + 1, i + 1)) acc
        (savedRow mc orig b) =
        ((List.range mc).map fun i => (i + 1, i + 1)).foldl
          (applyRowStep (savedRow mc orig b) b) acc :=
      applyRow_parse_some fc _ acc (savedRow mc orig b) b
        (by rw [savedRow_length]; omega)
        (by rw [savedRow_getD_zero]; exact parse_natToChars b)
        (by omega)
    rw [happ]
    have hinner := inner_fold_char mc fc orig b (by omega) mc 0 (by omega) acc hlen hmem
    rw [← List.range_eq_range'] at hinner
    obtain ⟨hL1, hM1, hC1⟩ := hinner
    obtain ⟨hL, hM, hC⟩ := ih (b + 1) (by omega) _ hL1 hM1
    refine ⟨hL, hM, ?_⟩
    intro m g
    rw [hC m g, hC1 m g]
    by_cases h1 : m < mc ∧ b + 1 ≤ g ∧ g < b + 1 + j ∧
        (getCell orig m g = 1 ∨ getCell orig m g = 2)
    · have hcond : m < mc ∧ b ≤ g ∧ g < b + (j + 1) ∧
          (getCell orig m g = 1 ∨ getCell orig m g = 2) :=
        ⟨h1.1, by omega, by omega, h1.2.2.2⟩
      rw [if_pos h1, if_pos hcond]
    · rw [if_neg h1]
      by_cases h2 : 0 ≤ m ∧ m < 0 + mc ∧ g = b ∧
          (getCell orig m b = 1 ∨ getCell orig m b = 2)
      · obtain ⟨_, hmmc, hgb, hor⟩ := h2
        have hcond1 : 0 ≤ m ∧ m < 0 + mc ∧ g = b ∧
            (getCell orig m b = 1 ∨ getCell orig m b = 2) :=
          ⟨by omega, hmmc, hgb, hor⟩
        have hcond2 : m < mc ∧ b ≤ g ∧ g < b + (j + 1) ∧
            (getCell orig m g = 1 ∨ getCell orig m g = 2) :=
          ⟨by omega, by omega, by omega, by rw [hgb]; exact hor⟩
        rw [if_pos hcond1, if_pos hcond2, hgb]
      · rw [if_neg h2, if_neg ?hneg]
        case hneg =>
          intro hh
          obtain ⟨hh1, hh2, hh3, hh4⟩ := hh
          by_cases hgb : g = b
          · subst hgb
            exact h2 ⟨by omega, by omega, rfl, hh4⟩
          · exact h1 ⟨hh1, by omega, by omega, hh4⟩

/-! ### C2, C3, C7 — the persistence contract -/

theorem getCell_zero_arrays (mc fc m g : Nat) :
    getCell (List.replicate mc (List.replicate fc 0)) m g = 0 := by
  unfold getCell
  by_cases hm : m < mc
  · rw [getD_replicate mc m _ [] hm]
    by_cases hg : g < fc
    · rw [getD_replicate fc g 0 0 hg]
    · rw [getD_replicate_oob fc g 0 0 (by omega)]
  · rw [getD_replicate_oob mc m _ [] (by omega)]
    rfl

/-- When the active subject has a positive entry, `save_results` writes
the full header and one row per frame. -/
theorem save_results_eq (fc mc cm : Nat) (za : List Timeline) (hne : za ≠ [])
    (hpos : ∃ v ∈ za.getD cm [], 0 < v) :
    save_results fc mc cm za =
      some (saveHeader mc, (List.range fc).map (savedRow mc za)) := by
  unfold save_results
  rw [if_neg (by simpa [List.isEmpty_iff] using hne)]
  have hcount : (za.getD cm []).countP (fun v => decide (0 < v)) ≠ 0 := by
    intro h
    rw [List.countP_eq_zero] at h
    obtain ⟨v, hv, hvp⟩ := hpos
    exact h v hv (by simpa using hvp)
  rw [if_neg hcount]

/-- Loading a file with the header `save_results` writes recovers the
subject count `mc` and folds the rows over fresh zero arrays. -/
theorem load_csv_saveHeader (fc mc : Nat) (hmc : 1 ≤ mc)
    (rows : List (List (List Char))) :
    load_csv fc (saveHeader mc) rows =
      some (mc, rows.foldl (applyRow fc ((List.range mc).map fun i => (i + 1, i + 1)))
        (List.replicate mc (List.replicate (fc + 1) 0))) := by
  have hlast : ((List.range mc).map fun j => (j + 1, j + 1)).getLast? = some (mc, mc) := by
    rw [getLast_map_range _ mc hmc]
    have h1 : mc - 1 + 1 = mc := by omega
    simp [h1]
  unfold load_csv
  rw [mouseColumns_saveHeader, saveHeader_cols_sorted, hlast]

/-- C2: for every subject count, every mixture of None/ZoneA/ZoneB
labels and any active subject owning at least one label (so that the
file is written), saving and re-loading the sidecar CSV for the same
video reproduces the subject count and every label of every subject at
every frame index. -/
theorem C2_roundtrip (fc mc cm : Nat) (za : List Timeline)
    (hmc : 1 ≤ mc) (hcm : cm < mc) (hlen : za.length = mc)
    (hrow : ∀ tl ∈ za, tl.length = fc + 1)
    (hval : ∀ tl ∈ za, ∀ v ∈ tl, v = 0 ∨ v = 1 ∨ v = 2)
    (hpos : ∃ v ∈ za.getD cm [], 0 < v) :
    ∃ header rows, save_results fc mc cm za = some (header, rows) ∧
      ∃ za2, load_csv fc header rows = some (mc, za2) ∧
        ∀ m g, m < mc → g < fc → getCell za2 m g = getCell za m g := by
  have hne : za ≠ [] := by
    intro h
    rw [h] at hlen
    simp at hlen
    omega
  refine ⟨saveHeader mc, (List.range fc).map (savedRow mc za),
    save_results_eq fc mc cm za hne hpos, ?_⟩
  rw [load_csv_saveHeader fc mc hmc]
  refine ⟨_, rfl, ?_⟩
  intro m g hm hg
  have hinit_len : (List.replicate mc (List.replicate (fc + 1) (0 : Nat))).length = mc := by
    simp
  have hinit_mem : ∀ tl ∈ List.replicate mc (List.replicate (fc + 1) (0 : Nat)),
      tl.length = fc + 1 := by
    intro tl htl
    rw [List.eq_of_mem_replicate htl]
    simp
  have h := rows_fold_char mc fc za hmc fc 0 (by omega) _ hinit_len hinit_mem
  rw [show (List.range fc).map (savedRow mc za) =
      (List.range' 0 fc).map (savedRow mc za) from by rw [List.range_eq_range']]
  rw [h.2.2 m g]
  have hmem_tl : za.getD m [] ∈ za := getD_mem za m [] (by omega)
  have hvg : (za.getD m []).getD g 0 ∈ za.getD m [] :=
    getD_mem _ g 0 (by rw [hrow _ hmem_tl]; omega)
  have hval_mg : getCell za m g = 0 ∨ getCell za m g = 1 ∨ getCell za m g = 2 :=
    hval _ hmem_tl _ hvg
  rcases hval_mg with h0 | h12
  · rw [if_neg (fun hh => by rcases hh.2.2.2 with h1 | h2 <;> omega)]
    rw [getCell_zero_arrays, h0]
  · have hcond : m < mc ∧ 0 ≤ g ∧ g < 0 + fc ∧
        (getCell za m g = 1 ∨ getCell za m g = 2) := ⟨hm, by omega, by omega, h12⟩
    rw [if_pos hcond]

/-- A concrete two-subject labeling for the C2 witness: subject 0 has
`[A, None, B]`, subject 1 has `[None, B, None]` over a 3-frame video. -/
def c2Arrays : List Timeline := [[1, 0, 2, 0], [0, 2, 0, 0]]

/-- Witness for C2 at the concrete labeling: the round trip reproduces
every cell of both subjects. -/
theorem C2_roundtrip_witness :
    ∃ header rows, save_results 3 2 0 c2Arrays = some (header, rows) ∧
      ∃ za2, load_csv 3 header rows = some (2, za2) ∧
        getCell za2 0 0 = 1 ∧ getCell za2 0 1 = 0 ∧ getCell za2 0 2 = 2 ∧
        getCell za2 1 0 = 0 ∧ getCell za2 1 1 = 2 ∧ getCell za2 1 2 = 0 := by
  obtain ⟨header, rows, hsave, za2, hload, hcell⟩ :=
    C2_roundtrip 3 2 0 c2Arrays (by decide) (by decide) (by decide)
      (by decide) (by decide) ⟨1, by decide, by decide⟩
  refine ⟨header, rows, hsave, za2, hload, ?_, ?_, ?_, ?_, ?_, ?_⟩
  · rw [hcell 0 0 (by decide) (by decide)]; decide
  · rw [hcell 0 1 (by decide) (by decide)]; decide
  · rw [hcell 0 2 (by decide) (by decide)]; decide
  · rw [hcell 1 0 (by decide) (by decide)]; decide
  · rw [hcell 1 1 (by decide) (by decide)]; decide
  · rw [hcell 1 2 (by decide) (by decide)]; decide

/-- C3: with a video loaded, `save_results` performs no write at all if
and only if the currently selected subject's array is entirely
unlabeled — regardless of the other subjects' labels — and when it does
write, the file covers all `fc` frame indices and all `mc` configured
subjects in every row. -/
theorem C3_save_guard (fc mc cm : Nat) (za : List Timeline)
    (hne : za ≠ []) (hcm : cm < za.length) :
    (save_results fc mc cm za = none ↔ ∀ v ∈ za.getD cm [], v = 0) ∧
    (∀ header rows, save_results fc mc cm za = some (header, rows) →
       header.length = mc + 1 ∧ rows.length = fc ∧ ∀ r ∈ rows, r.length = mc + 1) := by
  have hemp : za.isEmpty = false := by simpa [List.isEmpty_iff] using hne
  constructor
  · constructor
    · intro hnone
      unfold save_results at hnone
      rw [hemp] at hnone
      simp only [Bool.false_eq_true, if_false] at hnone
      by_cases hcount : (za.getD cm []).countP (fun v => decide (0 < v)) = 0
      · intro v hv
        rw [List.countP_eq_zero] at hcount
        have := hcount v hv
        simp at this
        omega
      · rw [if_neg hcount] at hnone
        exact absurd hnone (by simp)
    · intro hall
      unfold save_results
      rw [hemp]
      simp only [Bool.false_eq_true, if_false]
      rw [if_pos (List.countP_eq_zero.mpr (fun v hv => by simp [hall v hv]))]
  · intro header rows hsome
    unfold save_results at hsome
    rw [hemp] at hsome
    simp only [Bool.false_eq_true, if_false] at hsome
    by_cases hcount : (za.getD cm []).countP (fun v => decide (0 < v)) = 0
    · rw [if_pos hcount] at hsome
      exact absurd hsome (by simp)
    · rw [if_neg hcount] at hsome
      have hh : header = saveHeader mc ∧ rows = (List.range fc).map (savedRow mc za) := by
        have := hsome
        simp only [Option.some.injEq, Prod.mk.injEq] at this
        exact ⟨this.1.symm, this.2.symm⟩
      obtain ⟨rfl, rfl⟩ := hh
      refine ⟨by simp [saveHeader], by simp, ?_⟩
      intro r hr
      rw [List.mem_map] at hr
      obtain ⟨f, _, rfl⟩ := hr
      exact savedRow_length mc za f

/-- Witness for C3: with subject 0 active and unlabeled the file is
untouched even though subject 1 carries a label; with subject 1 active
the file is fully written (2 rows of 3 fields). -/
theorem C3_save_guard_witness :
    save_results 2 2 0 [[0, 0, 0], [0, 2, 0]] = none ∧
    ∀ header rows, save_results 2 2 1 [[0, 0, 0], [0, 2, 0]] = some (header, rows) →
      rows.length = 2 := by
  have h0 := C3_save_guard 2 2 0 [[0, 0, 0], [0, 2, 0]] (by decide) (by decide)
  have h1 := C3_save_guard 2 2 1 [[0, 0, 0], [0, 2, 0]] (by decide) (by decide)
  exact ⟨h0.1.mpr (by decide), fun header rows hs => (h1.2 header rows hs).2.1⟩

/-- C7: a data row whose first field does not parse as an integer — or
whose frame number is out of `[0, frame_count)` — is skipped without
affecting the rest of the load: removing it from the row list leaves
`load_csv` unchanged, whatever the header and surrounding rows are. -/
theorem C7_malformed_row_skipped (fc : Nat) (header : List (List Char))
    (r1 r2 : List (List (List Char))) (bad : List (List Char))
    (hbad : parsePyNat (bad.getD 0 []) = none ∨
            ∃ fn, parsePyNat (bad.getD 0 []) = some fn ∧ fc ≤ fn) :
    load_csv fc header (r1 ++ bad :: r2) = load_csv fc header (r1 ++ r2) := by
  unfold load_csv
  cases hl : (sortByKey (mouseColumns header)).getLast? with
  | none => rfl
  | some last =>
    have hskip : ∀ acc, applyRow fc (sortByKey (mouseColumns header)) acc bad = acc := by
      intro acc
      apply applyRow_skip
      rcases hbad with h | h
      · exact Or.inr (Or.inl h)
      · exact Or.inr (Or.inr h)
    simp only [Option.some.injEq, Prod.mk.injEq]
    refine ⟨trivial, ?_⟩
    rw [show bad :: r2 = [bad] ++ r2 from rfl, ← List.append_assoc,
      List.foldl_append, List.foldl_append, List.foldl_append]
    simp only [List.foldl_cons, List.foldl_nil]
    rw [hskip]

/-- The malformed row `"abc,A,B"` of the C7 scenario. -/
def c7BadRow : List (List Char) := [['a', 'b', 'c'], ['A'], ['B']]

/-- Witness for C7: inside the file `save_results` writes for
`c2Arrays`, inserting the row `abc,A,B` between the data rows changes
nothing about the loaded result. -/
theorem C7_malformed_row_skipped_witness :
    load_csv 3 (saveHeader 2)
        ([savedRow 2 c2Arrays 0] ++ c7BadRow :: [savedRow 2 c2Arrays 1, savedRow 2 c2Arrays 2]) =
      load_csv 3 (saveHeader 2)
        ([savedRow 2 c2Arrays 0] ++ [savedRow 2 c2Arrays 1, savedRow 2 c2Arrays 2]) := by
  exact C7_malformed_row_skipped 3 (saveHeader 2) [savedRow 2 c2Arrays 0]
    [savedRow 2 c2Arrays 1, savedRow 2 c2Arrays 2] c7BadRow (Or.inl (by decide))

/-! ### C10 — the label-value invariant -/

/-- Every slot of every subject's zone array holds 0 (None), 1 (Zone A)
or 2 (Zone B). -/
def ValidArrays (za : List Timeline) : Prop :=
  ∀ tl ∈ za, ∀ v ∈ tl, v = 0 ∨ v = 1 ∨ v = 2

instance (za : List Timeline) : Decidable (ValidArrays za) :=
  inferInstanceAs (Decidable (∀ tl ∈ za, ∀ v ∈ tl, v = 0 ∨ v = 1 ∨ v = 2))

theorem getD_oob {α : Type} (l : List α) (n : Nat) (d : α) (h : l.length ≤ n) :
    l.getD n d = d := by
  rw [List.getD_eq_getElem?_getD, List.getElem?_eq_none h]
  rfl

theorem valid_zero_arrays (mc n : Nat) :
    ValidArrays (List.replicate mc (List.replicate n 0)) := by
  intro tl htl v hv
  rw [List.eq_of_mem_replicate htl] at hv
  rw [List.eq_of_mem_replicate hv]
  exact Or.inl rfl

theorem valid_getD (za : List Timeline) (h : ValidArrays za) (i : Nat) :
    ∀ v ∈ za.getD i [], v = 0 ∨ v = 1 ∨ v = 2 := by
  intro v hv
  by_cases hi : i < za.length
  · exact h _ (getD_mem za i [] hi) v hv
  · rw [getD_oob za i [] (by omega)] at hv
    exact absurd hv (List.not_mem_nil v)

theorem valid_write2d (za : List Timeline) (m f v : Nat)
    (h : ValidArrays za) (hv : v = 0 ∨ v = 1 ∨ v = 2) :
    ValidArrays (write2d za m f v) := by
  intro tl htl w hw
  unfold write2d at htl
  rcases List.mem_or_eq_of_mem_set htl with hmem | heq
  · exact h tl hmem w hw
  · subst heq
    rcases List.mem_or_eq_of_mem_set hw with hmem | heq
    · exact valid_getD za h m w hmem
    · subst heq
      exact hv

theorem valid_applyRowStep (row : List (List Char)) (fn : Nat)
    (acc : List Timeline) (pc : Nat × Nat) (h : ValidArrays acc) :
    ValidArrays (applyRowStep row fn acc pc) := by
  unfold applyRowStep
  split_ifs
  · exact valid_write2d acc (pc.2 - 1) fn 1 h (Or.inr (Or.inl rfl))
  · exact valid_write2d acc (pc.2 - 1) fn 2 h (Or.inr (Or.inr rfl))
  · exact h
  · exact h

theorem valid_foldl_applyRowStep (row : List (List Char)) (fn : Nat) :
    ∀ (cols : List (Nat × Nat)) (acc : List Timeline), ValidArrays acc →
      ValidArrays (cols.foldl (applyRowStep row fn) acc) := by
  intro cols
  induction cols with
  | nil => intro acc h; exact h
  | cons pc cols ih =>
    intro acc h
    rw [List.foldl_cons]
    exact ih _ (valid_applyRowStep row fn acc pc h)

theorem valid_applyRow (fc : Nat) (cols : List (Nat × Nat))
    (acc : List Timeline) (row : List (List Char)) (h : ValidArrays acc) :
    ValidArrays (applyRow fc cols acc row) := by
  by_cases h2 : 1 < row.length
  · cases hp : parsePyNat (row.getD 0 []) with
    | none => rw [applyRow_skip fc cols acc row (Or.inr (Or.inl hp))]; exact h
    | some fn =>
      by_cases hlt : fn < fc
      · rw [applyRow_parse_some fc cols acc row fn h2 hp hlt]
        exact valid_foldl_applyRowStep row fn cols acc h
      · rw [applyRow_skip fc cols acc row (Or.inr (Or.inr ⟨fn, hp, by omega⟩))]
        exact h
  · rw [applyRow_skip fc cols acc row (Or.inl h2)]
    exact h

theorem valid_foldl_applyRow (fc : Nat) (cols : List (Nat × Nat)) :
    ∀ (rows : List (List (List Char))) (acc : List Timeline), ValidArrays acc →
      ValidArrays (rows.foldl (applyRow fc cols) acc) := by
  intro rows
  induction rows with
  | nil => intro acc h; exact h
  | cons row rows ih =>
    intro acc h
    rw [List.foldl_cons]
    exact ih _ (valid_applyRow fc cols acc row h)

theorem valid_copy_foldl (old fresh : List Timeline) (k : Nat)
    (hold : ValidArrays old) (hfresh : ValidArrays fresh) :
    ValidArrays ((List.range k).foldl
      (fun acc i => if i < old.length ∧ i < acc.length then acc.set i (old.getD i []) else acc)
      fresh) := by
  induction k with
  | zero => exact hfresh
  | succ n ih =>
    rw [List.range_succ, List.foldl_append]
    simp only [List.foldl_cons, List.foldl_nil]
    split_ifs
    · intro tl htl v hv
      rcases List.mem_or_eq_of_mem_set htl with hmem | heq
      · exact ih tl hmem v hv
      · subst heq
        exact valid_getD old hold n v hv
    · exact ih

/-- C10: every operation that touches the timelines — array
initialization, sidecar CSV load, the playback-driven gesture and
delete-mode writes of `update_frame`, the confirmed clear-all, and a
subject-count change — preserves (or establishes) the invariant that
every slot of every subject's array is 0, 1 or 2. -/
theorem C10_label_invariant :
    (∀ fc mc za, ValidArrays za → ValidArrays (initialize_zone_arrays fc mc za)) ∧
    (∀ s : AppState, ValidArrays s.zone_arrays →
       ValidArrays (update_frame s).zone_arrays) ∧
    (∀ fc header rows mc2 za2, load_csv fc header rows = some (mc2, za2) →
       ValidArrays za2) ∧
    (∀ mc za, ValidArrays za → ValidArrays (delete_all_labels za mc)) ∧
    (∀ (s : AppState) (M : Nat), ValidArrays s.zone_arrays →
       ValidArrays (mouse_count_changed s M).zone_arrays) := by
  refine ⟨?_, ?_, ?_, ?_, ?_⟩
  · intro fc mc za h
    unfold initialize_zone_arrays
    split_ifs
    · exact valid_zero_arrays mc (fc + 1)
    · exact h
  · intro s h
    by_cases hp : s.pos < s.frame_count
    · by_cases hc : s.mouse_pressed = true ∧ s.pos + 1 < s.frame_count
      · cases hgl : gestureLabel s with
        | none => rw [update_frame_eq_nowrite s hp (Or.inr hgl)]; exact h
        | some lab =>
          rw [update_frame_eq_write s hp hc lab hgl]
          have hlab : lab = 0 ∨ lab = 1 ∨ lab = 2 := by
            unfold gestureLabel at hgl
            by_cases hd : s.delete_mode = true
            · rw [if_pos hd] at hgl
              exact Or.inl (by simpa using hgl.symm)
            · rw [if_neg hd] at hgl
              cases hz : s.current_zone with
              | none => rw [hz] at hgl; exact absurd hgl (by simp)
              | some z =>
                rw [hz] at hgl
                cases z with
                | A => exact Or.inr (Or.inl (by simpa using hgl.symm))
                | B => exact Or.inr (Or.inr (by simpa using hgl.symm))
          exact valid_write2d s.zone_arrays s.current_mouse s.pos lab h hlab
      · rw [update_frame_eq_nowrite s hp (Or.inl hc)]; exact h
    · rw [update_frame_eq_eos s hp]; exact h
  · intro fc header rows mc2 za2 hload
    unfold load_csv at hload
    cases hl : (sortByKey (mouseColumns header)).getLast? with
    | none => rw [hl] at hload; exact absurd hload (by simp)
    | some last =>
      rw [hl] at hload
      simp only [Option.some.injEq, Prod.mk.injEq] at hload
      rw [← hload.2]
      exact valid_foldl_applyRow fc _ rows _ (valid_zero_arrays last.2 (fc + 1))
  · intro mc za h
    unfold delete_all_labels
    induction mc with
    | zero => exact h
    | succ n ih =>
      rw [List.range_succ, List.foldl_append]
      simp only [List.foldl_cons, List.foldl_nil]
      intro tl htl v hv
      rcases List.mem_or_eq_of_mem_set htl with hmem | heq
      · exact ih tl hmem v hv
      · subst heq
        rw [List.eq_of_mem_replicate hv]
        exact Or.inl rfl
  · intro s M h
    unfold mouse_count_changed
    split_ifs with hfc
    · by_cases hemp : s.zone_arrays.isEmpty
      · simp only [hemp, if_true]
        exact valid_zero_arrays M (s.frame_count + 1)
      · simp only [hemp, Bool.false_eq_true, if_false]
        exact valid_copy_foldl s.zone_arrays _ _ h (valid_zero_arrays M (s.frame_count + 1))
    · exact h

/-- Witness for C10: the invariant instantiated at concrete states for
each operation — fresh initialization, a gesture write during playback,
a sidecar load, a confirmed clear-all, and a subject-count change. -/
theorem C10_label_invariant_witness :
    ValidArrays (initialize_zone_arrays 3 1 []) ∧
    ValidArrays (update_frame (mouse_press_event c1Start Button.left)).zone_arrays ∧
    ValidArrays (List.replicate 1 (List.replicate 3 (0 : Nat))) ∧
    ValidArrays (delete_all_labels [[0, 1, 2]] 1) ∧
    ValidArrays (mouse_count_changed c6State 3).zone_arrays := by
  have h := C10_label_invariant
  refine ⟨h.1 3 1 [] (by decide), h.2.1 _ (by decide), ?_, ?_, ?_⟩
  · exact h.2.2.1 2 [['M', 'o', 'u', 's', 'e', ' ', '1']] [] 1
      (List.replicate 1 (List.replicate 3 0)) (by decide)
  · exact h.2.2.2.1 1 [[0, 1, 2]] (by decide)
  · exact h.2.2.2.2 c6State 3 (by decide)

end KSPlayer
